import Mathlib

/-!
Shallow embedding of `ExpenseGrabber.py`: a personal-finance CSV pipeline
parsing bank transaction exports (RBC and Tangerine formats), filtering by
month, resolving categories through a persisted description→category map,
sorting by date and aggregating totals.

Python `datetime` dates are modelled as year/month/day triples, Python
`float` amounts as exact numerator/denominator pairs (`PyFloat`),
`dict[str, str]` as an insertion-ordered
association list, CSV rows as structures holding the columns the code
reads, and the interactive console as a response oracle.  String helpers
(`strip`, `split`, `in`, `int(...)`, `float(...)`) are re-implemented on
`List Char` by structural recursion so that concrete runs reduce inside
the kernel.
-/

/-- Characters treated as whitespace by the model of Python `str.strip()`. -/
def isSpaceChar (c : Char) : Bool :=
  c = ' ' || c = '\t' || c = '\n' || c = '\r'

/-- Model of Python `str.strip()` on the character list. -/
def trimChars (cs : List Char) : List Char :=
  ((cs.dropWhile isSpaceChar).reverse.dropWhile isSpaceChar).reverse

/-- Model of Python `str.split(sep)` for a one-character separator:
always returns a non-empty list of (possibly empty) segments. -/
def splitOnChar (sep : Char) : List Char → List (List Char)
  | [] => [[]]
  | c :: t =>
    if c = sep then [] :: splitOnChar sep t
    else
      match splitOnChar sep t with
      | [] => [[c]]
      | h :: r => (c :: h) :: r

/-- Numeric value of a digit list (most significant first). -/
def digitsVal (cs : List Char) : Nat :=
  cs.foldl (fun a c => a * 10 + (c.toNat - 48)) 0

/-- Parses a non-empty all-digit character list to a `Nat`. -/
def digitsToNat (cs : List Char) : Option Nat :=
  if cs ≠ [] ∧ cs.all Char.isDigit then some (digitsVal cs) else none

/-- Model of Python `int(s)`: optional surrounding whitespace, optional
sign, then decimal digits (digit-group underscores are not modelled; no
claim depends on them). -/
def parsePyInt (s : String) : Option Int :=
  match trimChars s.data with
  | '-' :: rest => (digitsToNat rest).map (fun n => -(n : Int))
  | '+' :: rest => (digitsToNat rest).map (fun n => (n : Int))
  | cs => (digitsToNat cs).map (fun n => (n : Int))

/-- A Python `float` amount represented exactly: a numerator over a
positive power-of-ten denominator.  The program only signs-compares,
adds and takes `abs` of amounts; these are modelled exactly as rational
arithmetic on this unreduced representation (binary floating-point
rounding is not modelled). -/
structure PyFloat where
  num : Int
  den : Nat
deriving DecidableEq, Repr

/-- The float `0` (the `total = 0` initialiser and the literal `0` in
`float(row[6]) < 0`). -/
def PyFloat.zero : PyFloat := ⟨0, 1⟩

/-- Exact `<` on represented rationals by cross multiplication; the
parser only produces positive denominators. -/
def PyFloat.ltB (a b : PyFloat) : Bool :=
  decide (a.num * (b.den : Int) < b.num * (a.den : Int))

/-- Exact addition (`total += transaction[3]`). -/
def PyFloat.add (a b : PyFloat) : PyFloat :=
  ⟨a.num * (b.den : Int) + b.num * (a.den : Int), a.den * b.den⟩

/-- `abs(...)` on a represented rational. -/
def PyFloat.abs (a : PyFloat) : PyFloat := ⟨|a.num|, a.den⟩

/-- The rational value a `PyFloat` denotes. -/
def PyFloat.toRat (a : PyFloat) : ℚ := (a.num : ℚ) / (a.den : ℚ)

/-- Model of Python `float(s)` on the decimal forms the data uses:
optional whitespace and sign, digits with an optional single decimal
point (scientific notation, `inf`/`nan` are not modelled; no claim
depends on them).  Produces an exact value. -/
def parsePyFloat (s : String) : Option PyFloat :=
  let cs := trimChars s.data
  let signBody : Bool × List Char :=
    match cs with
    | '-' :: r => (true, r)
    | '+' :: r => (false, r)
    | r => (false, r)
  let body := signBody.2
  let val? : Option PyFloat :=
    match splitOnChar '.' body with
    | [a] => (digitsToNat a).map (fun n => ⟨(n : Int), 1⟩)
    | [a, b] =>
      if (a ++ b) ≠ [] ∧ a.all Char.isDigit ∧ b.all Char.isDigit then
        some ⟨((digitsVal a * 10 ^ b.length + digitsVal b : Nat) : Int), 10 ^ b.length⟩
      else none
    | _ => none
  val?.map (fun v => if signBody.1 then ⟨-v.num, v.den⟩ else v)

/-- A calendar date as parsed by `datetime.strptime(s, "%m/%d/%Y")`. -/
structure Date where
  year : Nat
  month : Nat
  day : Nat
deriving DecidableEq, Repr

/-- Model of `datetime.strptime(s, "%m/%d/%Y")`: three `/`-separated
digit fields, month 1–12, day 1–31, failing (`ValueError`) otherwise.
(strptime's per-month day-count check is not modelled; no claim depends
on it.) -/
def parseDateMDY (s : String) : Option Date :=
  match splitOnChar '/' s.data with
  | [m, d, y] =>
    match digitsToNat m, digitsToNat d, digitsToNat y with
    | some mv, some dv, some yv =>
      if 1 ≤ mv ∧ mv ≤ 12 ∧ 1 ≤ dv ∧ dv ≤ 31 then some ⟨yv, mv, dv⟩ else none
    | _, _, _ => none
  | _ => none

/-- `datetime` comparison restricted to dates: lexicographic on
(year, month, day). -/
def dateLe (a b : Date) : Bool :=
  if a.year = b.year then
    if a.month = b.month then decide (a.day ≤ b.day)
    else decide (a.month < b.month)
  else decide (a.year < b.year)

/-- Model of Python `needle in hay` (substring containment) at the
character-list level. -/
def containsAux (p : List Char) : List Char → Bool
  | [] => p.isEmpty
  | c :: t => p.isPrefixOf (c :: t) || containsAux p t

/-- Model of Python `needle in hay` on strings. -/
def strContainsB (needle hay : String) : Bool :=
  containsAux needle.data hay.data

/-- Model of `row[3].split(":")[-1].strip()` in `parse_tangerine`. -/
def lastColonSeg (s : String) : String :=
  String.mk (trimChars ((splitOnChar ':' s.data).getLastD []))

/-- The in-memory transaction tuple `(datetime, str, str, float)`. -/
structure Transaction where
  date : Date
  description : String
  category : String
  amount : PyFloat
deriving DecidableEq, Repr

/-- Python `dict[str, str]` modelled as an insertion-ordered association
list with unique-key updates. -/
abbrev CategoryMap := List (String × String)

/-- Model of `dict.get(k, dflt)`. -/
def cmGetD (m : CategoryMap) (k : String) (dflt : String) : String :=
  match m with
  | [] => dflt
  | (k2, v) :: t => if k2 = k then v else cmGetD t k dflt

/-- Key lookup returning `none` for an absent key. -/
def cmGet? (m : CategoryMap) (k : String) : Option String :=
  match m with
  | [] => none
  | (k2, v) :: t => if k2 = k then some v else cmGet? t k

/-- Model of `d[k] = v` on a Python dict: replaces the value of an
existing key in place, appends a new key at the end. -/
def cmInsert (m : CategoryMap) (k v : String) : CategoryMap :=
  match m with
  | [] => [(k, v)]
  | (k2, v2) :: t => if k2 = k then (k, v) :: t else (k2, v2) :: cmInsert t k v

/-- Model of `get_unique_categories` = `list(set(self.categories.values()))`.
Python's set iteration order is unspecified; it is modelled
deterministically as duplicate removal over the value list. -/
def get_unique_categories (m : CategoryMap) : List String :=
  (m.map Prod.snd).dedup

/-- Python sequence indexing `l[i]` with negative indices counting from
the end; `none` models `IndexError`. -/
def pyIndex (l : List String) (i : Int) : Option String :=
  if 0 ≤ i then l[i.toNat]?
  else if 0 ≤ i + l.length then l[(i + l.length).toNat]?
  else none

/-- Model of `add_category`: the operator's console reply is the
`reply` argument.  `int(reply)` followed by indexing into the unique
category list selects an existing category; any exception (non-integer
reply or out-of-range index) falls back to storing the reply string
itself as the category. -/
def add_category (cats : CategoryMap) (transaction : String) (reply : String) :
    CategoryMap :=
  match (parsePyInt reply).bind (fun i => pyIndex (get_unique_categories cats) i) with
  | some c => cmInsert cats transaction c
  | none => cmInsert cats transaction reply

/-- Row-level parse failures: `ValueError` from `strptime` or `float`. -/
inductive ParseErr where
  | badDate (s : String)
  | badAmount (s : String)
deriving DecidableEq, Repr

/-- The mutable parser state: the transactions list and the category map. -/
structure ParseState where
  transactions : List Transaction
  categories : CategoryMap
deriving DecidableEq, Repr

/-- An RBC CSV row; only columns 2 (date), 4 (description) and
6 (amount) are read by `parse_rbc`. -/
structure RbcRow where
  col2 : String
  col4 : String
  col6 : String
deriving DecidableEq, Repr

/-- A Tangerine CSV row; `parse_tangerine` reads columns 0 (date),
1 (type), 2 (description), 3 (memo) and 4 (amount). -/
structure TangRow where
  col0 : String
  col1 : String
  col2 : String
  col3 : String
  col4 : String
deriving DecidableEq, Repr

/-- The category-resolution block of `parse_rbc` (lines 33–39): returns
the resolved category together with the updated map.  `resp` models
`input()` as a function of the prompted description. -/
def rbcCategorize (cats : CategoryMap) (interactive : Bool)
    (resp : String → String) (desc : String) : String × CategoryMap :=
  let category := cmGetD cats desc "Unknown"
  if category = "Unknown" ∧ interactive = true then
    let cats2 := add_category cats desc (resp desc)
    (cmGetD cats2 desc "Unknown", cats2)
  else
    (category, cmInsert cats desc category)

/-- One loop iteration of `parse_rbc` on a single row.  Mirrors the
source order: the `"CAD$"` marker check, `strptime` on column 2,
category resolution, then the short-circuit filter
`date.month == month and float(row[6]) < 0 and all(...)` — `float` is
only evaluated when the month matches. -/
def parse_rbc_row (monthlyCosts : List String) (interactive : Bool)
    (resp : String → String) (month : Nat) (st : ParseState) (row : RbcRow) :
    Except ParseErr ParseState :=
  if row.col6 = "CAD$" then .ok st
  else
    match parseDateMDY row.col2 with
    | none => .error (.badDate row.col2)
    | some date =>
      let rc := rbcCategorize st.categories interactive resp row.col4
      if date.month = month then
        match parsePyFloat row.col6 with
        | none => .error (.badAmount row.col6)
        | some amt =>
          if amt.ltB PyFloat.zero = true ∧ monthlyCosts.all (fun s => !strContainsB s row.col4) = true then
            .ok ⟨st.transactions ++ [⟨date, row.col4, rc.1, amt⟩], rc.2⟩
          else .ok ⟨st.transactions, rc.2⟩
      else .ok ⟨st.transactions, rc.2⟩

/-- The category-resolution block of `parse_tangerine` (lines 62–70).
When the lookup yields `"Unknown"` the code computes the colon-delimited
fallback from the memo column, but only its emptiness is ever tested:
the non-prompting branch assigns `"Unknown"` regardless of the fallback
value before storing it. -/
def tangCategorize (cats : CategoryMap) (interactive : Bool)
    (resp : String → String) (desc memo : String) : String × CategoryMap :=
  let category := cmGetD cats desc "Unknown"
  if category = "Unknown" then
    let fallback := lastColonSeg memo
    if fallback = "" ∧ interactive = true then
      let cats2 := add_category cats desc (resp desc)
      let c := cmGetD cats2 desc "Unknown"
      (c, cmInsert cats2 desc c)
    else
      ("Unknown", cmInsert cats desc "Unknown")
  else (category, cats)

/-- One loop iteration of `parse_tangerine` on a single row: header
check on column 0, `strptime` on column 0, category resolution, then
`if date.month == month and row[1] == "DEBIT"` guarding a prepend
(`insert(0, ...)`) whose amount `float(row[4])` is only evaluated inside
the guard. -/
def parse_tangerine_row (interactive : Bool) (resp : String → String)
    (month : Nat) (st : ParseState) (row : TangRow) :
    Except ParseErr ParseState :=
  if row.col0 = "Transaction date" then .ok st
  else
    match parseDateMDY row.col0 with
    | none => .error (.badDate row.col0)
    | some date =>
      let tc := tangCategorize st.categories interactive resp row.col2 row.col3
      if date.month = month ∧ row.col1 = "DEBIT" then
        match parsePyFloat row.col4 with
        | none => .error (.badAmount row.col4)
        | some amt => .ok ⟨⟨date, row.col2, tc.1, amt⟩ :: st.transactions, tc.2⟩
      else .ok ⟨st.transactions, tc.2⟩

/-- A row of either bank, as dispatched by `process_transactions`. -/
inductive Row where
  | rbc (r : RbcRow)
  | tang (r : TangRow)
deriving DecidableEq, Repr

/-- Dispatch one row to its bank's parser. -/
def rowStep (monthlyCosts : List String) (interactive : Bool)
    (resp : String → String) (month : Nat) (st : ParseState) :
    Row → Except ParseErr ParseState
  | .rbc r => parse_rbc_row monthlyCosts interactive resp month st r
  | .tang r => parse_tangerine_row interactive resp month st r

/-- Runs the parsers over a list of rows, threading the state and
propagating the first fatal parse error. -/
def runRows (monthlyCosts : List String) (interactive : Bool)
    (resp : String → String) (month : Nat) (st : ParseState) :
    List Row → Except ParseErr ParseState
  | [] => .ok st
  | row :: rest =>
    match rowStep monthlyCosts interactive resp month st row with
    | .error e => .error e
    | .ok st2 => runRows monthlyCosts interactive resp month st2 rest

/-- The sort key of `self._transactions.sort(key=lambda t: t[0])`. -/
def txLe (a b : Transaction) : Prop := dateLe a.date b.date = true

instance : DecidableRel txLe := fun a b => instDecidableEqBool (dateLe a.date b.date) true

instance : IsTotal Transaction txLe :=
  ⟨fun a b => by
    unfold txLe dateLe
    split_ifs <;> simp_all <;> omega⟩

instance : IsTrans Transaction txLe :=
  ⟨fun a b c hab hbc => by
    unfold txLe dateLe at hab hbc ⊢
    split_ifs at hab hbc ⊢ <;> simp_all <;> omega⟩

instance : DecidableEq (Except ParseErr ParseState) := fun a b =>
  match a, b with
  | .ok x, .ok y =>
    if h : x = y then .isTrue (by rw [h]) else .isFalse (fun hh => h (Except.ok.inj hh))
  | .error x, .error y =>
    if h : x = y then .isTrue (by rw [h]) else .isFalse (fun hh => h (Except.error.inj hh))
  | .ok _, .error _ => .isFalse (fun hh => Except.noConfusion hh)
  | .error _, .ok _ => .isFalse (fun hh => Except.noConfusion hh)

/-- Model of `process_transactions`: parse all rows starting from an
empty ledger and the loaded category map, then sort the ledger by date.
Python's `list.sort` is stable (Timsort); a stable sort over a total
preorder key is unique, so it is modelled by the stable
`List.insertionSort`. -/
def process_transactions (monthlyCosts : List String) (interactive : Bool)
    (resp : String → String) (month : Nat) (cats0 : CategoryMap)
    (rows : List Row) : Except ParseErr ParseState :=
  match runRows monthlyCosts interactive resp month ⟨[], cats0⟩ rows with
  | .error e => .error e
  | .ok st => .ok ⟨List.insertionSort txLe st.transactions, st.categories⟩

/-- Model of `total_spent`: a running sum over the transactions followed
by `abs`. -/
def total_spent (transactions : List Transaction) : PyFloat :=
  PyFloat.abs (transactions.foldl (fun total t => total.add t.amount) PyFloat.zero)

/-- The `monthly_costs` argument the `__main__` block passes to the
`ExpenseGrabber` constructor (line 204): the empty list. -/
def mainMonthlyCosts : List String := []

/-- JSON string-character escaping as `json.dump` applies it to the
quote and backslash characters (other escapes never arise in the
round-trip property; unescaped characters pass through verbatim). -/
def escChar (c : Char) : List Char :=
  if c = '\"' ∨ c = '\\' then ['\\', c] else [c]

/-- Escapes a whole character list. -/
def escChars : List Char → List Char
  | [] => []
  | c :: t => escChar c ++ escChars t

/-- One serialized `"key": "value"` entry, with `json.dump`'s default
`": "` separator. -/
def encEntryChars (kv : String × String) : List Char :=
  '\"' :: (escChars kv.1.data ++
    '\"' :: ':' :: ' ' :: '\"' :: (escChars kv.2.data ++ ['\"']))

/-- Entries joined by `json.dump`'s default `", "` separator. -/
def encEntriesChars : List (String × String) → List Char
  | [] => []
  | [kv] => encEntryChars kv
  | kv :: kv2 :: rest => encEntryChars kv ++ ',' :: ' ' :: encEntriesChars (kv2 :: rest)

/-- Model of `json.dump` on a `dict[str, str]`: the brace-delimited
object document. -/
def json_dump (m : CategoryMap) : String :=
  String.mk ('\x7b' :: (encEntriesChars m ++ ['\x7d']))

/-- JSON string-body scanner: consumes characters up to the closing
quote, unescaping backslash pairs; `acc` holds the reversed prefix and
the flag records a pending backslash escape. -/
def pStrB : Bool → List Char → List Char → Option (String × List Char)
  | _, _, [] => none
  | true, acc, c :: rest => pStrB false (c :: acc) rest
  | false, acc, c :: rest =>
    if c = '\"' then some (String.mk acc.reverse, rest)
    else if c = '\\' then pStrB true acc rest
    else pStrB false (c :: acc) rest

/-- JSON string-body scanner starting outside any escape. -/
def pStr (acc : List Char) (cs : List Char) : Option (String × List Char) :=
  pStrB false acc cs

/-- Parses one `"key": "value"` entry. -/
def pEntry (cs : List Char) : Option ((String × String) × List Char) :=
  match cs with
  | [] => none
  | c :: rest =>
    if c = '\"' then
      match pStr [] rest with
      | some (k, c1 :: c2 :: c3 :: rest2) =>
        if c1 = ':' ∧ c2 = ' ' ∧ c3 = '\"' then
          match pStr [] rest2 with
          | some (v, rest3) => some ((k, v), rest3)
          | none => none
        else none
      | _ => none
    else none

/-- Parses a non-empty `", "`-separated entry sequence; `fuel` bounds
the number of entries. -/
def pEntriesAux : Nat → List Char → Option (List (String × String) × List Char)
  | 0, _ => none
  | Nat.succ fuel, cs =>
    match pEntry cs with
    | none => none
    | some (kv, rest) =>
      match rest with
      | c1 :: c2 :: rest2 =>
        if c1 = ',' ∧ c2 = ' ' then
          match pEntriesAux fuel rest2 with
          | some (l, rest3) => some (kv :: l, rest3)
          | none => none
        else some ([kv], rest)
      | _ => some ([kv], rest)

/-- Model of `json.load` on an object document of string keys and
string values; `none` models a raised `JSONDecodeError`. -/
def json_load (s : String) : Option CategoryMap :=
  match s.data with
  | [] => none
  | c :: rest =>
    if c = '\x7b' then
      if rest = ['\x7d'] then some []
      else
        match pEntriesAux (rest.length + 1) rest with
        | some (l, rest3) => if rest3 = ['\x7d'] then some l else none
        | none => none
    else none

/-- Model of `save_categories`: unconditionally overwrites the persisted
state (an `Option String` models the file's contents). -/
def save_categories (m : CategoryMap) : Option String :=
  some (json_dump m)

/-- Model of the module-level `get_categories`: a missing file yields
the empty mapping (`FileNotFoundError` handler); otherwise the file is
decoded, a failure being the uncaught fatal `JSONDecodeError`. -/
def get_categories (file : Option String) : Option CategoryMap :=
  match file with
  | none => some []
  | some s => json_load s

theorem string_mk_data (s : String) : String.mk s.data = s := rfl

theorem pStr_quote (acc rest : List Char) :
    pStr acc ('\"' :: rest) = some (String.mk acc.reverse, rest) := rfl

theorem pStr_backslash (acc : List Char) (c : Char) (rest : List Char) :
    pStr acc ('\\' :: c :: rest) = pStr (c :: acc) rest := rfl

theorem pStr_other (acc : List Char) (c : Char) (rest : List Char)
    (h1 : c ≠ '\"') (h2 : c ≠ '\\') :
    pStr acc (c :: rest) = pStr (c :: acc) rest := by
  show pStrB false acc (c :: rest) = pStrB false (c :: acc) rest
  rw [pStrB, if_neg h1, if_neg h2]

theorem pStr_esc (cs : List Char) : ∀ (acc rest : List Char),
    pStr acc (escChars cs ++ '\"' :: rest) = some (String.mk (acc.reverse ++ cs), rest) := by
  induction cs with
  | nil =>
    intro acc rest
    simp only [escChars, List.nil_append, pStr_quote, List.append_nil]
  | cons c t ih =>
    intro acc rest
    by_cases hc : c = '\"' ∨ c = '\\'
    · have h1 : escChar c = ['\\', c] := by simp [escChar, hc]
      have h2 : (escChars (c :: t) ++ '\"' :: rest) =
          '\\' :: c :: (escChars t ++ '\"' :: rest) := by
        simp [escChars, h1]
      rw [h2, pStr_backslash, ih]
      simp
    · push_neg at hc
      have h1 : escChar c = [c] := by simp [escChar, hc.1, hc.2]
      have h2 : (escChars (c :: t) ++ '\"' :: rest) =
          c :: (escChars t ++ '\"' :: rest) := by
        simp [escChars, h1]
      rw [h2, pStr_other acc c _ hc.1 hc.2, ih]
      simp

theorem pEntry_enc (kv : String × String) (rest : List Char) :
    pEntry (encEntryChars kv ++ rest) = some (kv, rest) := by
  obtain ⟨k, v⟩ := kv
  have h : encEntryChars (k, v) ++ rest =
      '\"' :: (escChars k.data ++
        '\"' :: (':' :: ' ' :: '\"' :: (escChars v.data ++ '\"' :: rest))) := by
    simp [encEntryChars]
  rw [h]
  simp only [pEntry, if_pos rfl, pStr_esc, List.nil_append, string_mk_data]
  simp

theorem pEntriesAux_enc (m : CategoryMap) : m ≠ [] → ∀ fuel, m.length ≤ fuel →
    pEntriesAux fuel (encEntriesChars m ++ ['\x7d']) = some (m, ['\x7d']) := by
  induction m with
  | nil => intro h; exact absurd rfl h
  | cons kv t ih =>
    intro _ fuel hf
    cases fuel with
    | zero => simp at hf
    | succ f =>
      cases t with
      | nil =>
        simp [encEntriesChars, pEntriesAux, pEntry_enc]
      | cons kv2 t2 =>
        have hne : kv2 :: t2 ≠ [] := by simp
        have hlen : (kv2 :: t2).length ≤ f := by
          simp only [List.length_cons] at hf ⊢
          omega
        have harr : encEntriesChars (kv :: kv2 :: t2) ++ ['\x7d'] =
            encEntryChars kv ++ ',' :: ' ' :: (encEntriesChars (kv2 :: t2) ++ ['\x7d']) := by
          simp [encEntriesChars]
        rw [harr]
        simp [pEntriesAux, pEntry_enc, ih hne f hlen]

theorem encEntriesChars_length (m : CategoryMap) :
    m.length ≤ (encEntriesChars m).length := by
  induction m with
  | nil => simp [encEntriesChars]
  | cons kv t ih =>
    cases t with
    | nil => simp [encEntriesChars, encEntryChars]
    | cons kv2 t2 =>
      simp only [encEntriesChars, List.length_append, List.length_cons] at ih ⊢
      simp [encEntryChars]
      omega

theorem string_data_mk (l : List Char) : (String.mk l).data = l := rfl

/-- C9: saving any CategoryMap with `save_categories` and then loading
with `get_categories` reproduces the same mapping for every description:
load after save is the identity. -/
theorem save_load_roundtrip (m : CategoryMap) :
    get_categories (save_categories m) = some m := by
  cases m with
  | nil => rfl
  | cons kv t =>
    have hne : (kv :: t) ≠ ([] : CategoryMap) := by simp
    have hlen1 : t.length + 1 ≤ (encEntriesChars (kv :: t)).length := by
      have h := encEntriesChars_length (kv :: t)
      simp only [List.length_cons] at h
      exact h
    have hmain := pEntriesAux_enc (kv :: t) hne
      ((encEntriesChars (kv :: t) ++ ['\x7d']).length + 1)
      (by simp only [List.length_append, List.length_cons, List.length_nil]; omega)
    have hne2 : encEntriesChars (kv :: t) ++ ['\x7d'] ≠ ['\x7d'] := by
      intro h
      have hl := congrArg List.length h
      simp only [List.length_append, List.length_cons, List.length_nil] at hl
      omega
    have hd : (json_dump (kv :: t)).data =
        '\x7b' :: (encEntriesChars (kv :: t) ++ ['\x7d']) := rfl
    show json_load (json_dump (kv :: t)) = some (kv :: t)
    simp only [json_load, hd, if_pos rfl, if_neg hne2, hmain, if_pos]

theorem cmGet_insert_self (m : CategoryMap) (k v : String) :
    cmGet? (cmInsert m k v) k = some v := by
  induction m with
  | nil => simp [cmInsert, cmGet?]
  | cons p t ih =>
    obtain ⟨k2, v2⟩ := p
    by_cases h : k2 = k
    · simp [cmInsert, cmGet?, h]
    · simp [cmInsert, cmGet?, h, ih]

theorem cmGetD_of_get (m : CategoryMap) (k d v : String)
    (h : cmGet? m k = some v) : cmGetD m k d = v := by
  induction m with
  | nil => simp [cmGet?] at h
  | cons p t ih =>
    obtain ⟨k2, v2⟩ := p
    by_cases hk : k2 = k
    · simp [cmGet?, hk] at h
      simp [cmGetD, hk, h]
    · simp only [cmGet?, if_neg hk] at h
      simp [cmGetD, hk, ih h]

theorem cmGetD_ne_default (m : CategoryMap) (k d : String)
    (h : cmGetD m k d ≠ d) : cmGet? m k = some (cmGetD m k d) := by
  induction m with
  | nil => simp [cmGetD] at h
  | cons p t ih =>
    obtain ⟨k2, v2⟩ := p
    by_cases hk : k2 = k
    · simp [cmGetD, cmGet?, hk]
    · simp only [cmGetD, if_neg hk] at h ⊢
      simp only [cmGet?, if_neg hk]
      exact ih h

theorem add_category_eq_insert (cats : CategoryMap) (tx reply : String) :
    ∃ v, add_category cats tx reply = cmInsert cats tx v := by
  cases h : (parsePyInt reply).bind (fun i => pyIndex (get_unique_categories cats) i) with
  | none => exact ⟨reply, by simp [add_category, h]⟩
  | some c => exact ⟨c, by simp [add_category, h]⟩

theorem rbcCategorize_lookup (cats : CategoryMap) (inter : Bool)
    (resp : String → String) (desc : String) :
    cmGet? (rbcCategorize cats inter resp desc).2 desc =
      some (rbcCategorize cats inter resp desc).1 := by
  unfold rbcCategorize
  by_cases h : cmGetD cats desc "Unknown" = "Unknown" ∧ inter = true
  · simp only [if_pos h]
    obtain ⟨v, hv⟩ := add_category_eq_insert cats desc (resp desc)
    rw [hv]
    have h2 := cmGet_insert_self cats desc v
    rw [cmGetD_of_get _ _ _ _ h2]
    exact h2
  · simp only [if_neg h]
    exact cmGet_insert_self cats desc _

theorem tangCategorize_lookup (cats : CategoryMap) (inter : Bool)
    (resp : String → String) (desc memo : String) :
    cmGet? (tangCategorize cats inter resp desc memo).2 desc =
      some (tangCategorize cats inter resp desc memo).1 := by
  unfold tangCategorize
  by_cases h : cmGetD cats desc "Unknown" = "Unknown"
  · simp only [if_pos h]
    by_cases h2 : lastColonSeg memo = "" ∧ inter = true
    · simp only [if_pos h2]
      exact cmGet_insert_self _ _ _
    · simp only [if_neg h2]
      exact cmGet_insert_self _ _ _
  · simp only [if_neg h]
    exact cmGetD_ne_default cats desc "Unknown" h

theorem parse_rbc_row_categories (mc : List String) (inter : Bool)
    (resp : String → String) (month : Nat) (st : ParseState) (row : RbcRow)
    (st2 : ParseState) (h6 : row.col6 ≠ "CAD$")
    (hok : parse_rbc_row mc inter resp month st row = .ok st2) :
    st2.categories = (rbcCategorize st.categories inter resp row.col4).2 := by
  simp only [parse_rbc_row, if_neg h6] at hok
  cases hd : parseDateMDY row.col2 with
  | none => simp only [hd] at hok; simp at hok
  | some d =>
    simp only [hd] at hok
    by_cases hm : d.month = month
    · rw [if_pos hm] at hok
      cases ha : parsePyFloat row.col6 with
      | none => simp only [ha] at hok; simp at hok
      | some a =>
        simp only [ha] at hok
        by_cases hc : a.ltB PyFloat.zero = true ∧ mc.all (fun s => !strContainsB s row.col4) = true
        · rw [if_pos hc] at hok
          cases hok
          rfl
        · rw [if_neg hc] at hok
          cases hok
          rfl
    · rw [if_neg hm] at hok
      cases hok
      rfl

theorem parse_tangerine_row_categories (inter : Bool) (resp : String → String)
    (month : Nat) (st : ParseState) (row : TangRow) (st2 : ParseState)
    (h0 : row.col0 ≠ "Transaction date")
    (hok : parse_tangerine_row inter resp month st row = .ok st2) :
    st2.categories = (tangCategorize st.categories inter resp row.col2 row.col3).2 := by
  simp only [parse_tangerine_row, if_neg h0] at hok
  cases hd : parseDateMDY row.col0 with
  | none => simp only [hd] at hok; simp at hok
  | some d =>
    simp only [hd] at hok
    by_cases hm : d.month = month ∧ row.col1 = "DEBIT"
    · rw [if_pos hm] at hok
      cases ha : parsePyFloat row.col4 with
      | none => simp only [ha] at hok; simp at hok
      | some a =>
        simp only [ha] at hok
        cases hok
        rfl
    · rw [if_neg hm] at hok
      cases hok
      rfl

theorem parse_rbc_row_adds (mc : List String) (inter : Bool) (resp : String → String)
    (month : Nat) (st : ParseState) (row : RbcRow) (st2 : ParseState)
    (h6 : row.col6 ≠ "CAD$")
    (hok : parse_rbc_row mc inter resp month st row = .ok st2) :
    (∃ t, st2.transactions = st.transactions ++ [t]) ↔
      (∃ d, parseDateMDY row.col2 = some d ∧ d.month = month ∧
        ∃ a, parsePyFloat row.col6 = some a ∧ a.ltB PyFloat.zero = true ∧
          mc.all (fun s => !strContainsB s row.col4) = true) := by
  simp only [parse_rbc_row, if_neg h6] at hok
  cases hd : parseDateMDY row.col2 with
  | none => simp only [hd] at hok; simp at hok
  | some d =>
    simp only [hd] at hok
    by_cases hm : d.month = month
    · rw [if_pos hm] at hok
      cases ha : parsePyFloat row.col6 with
      | none => simp only [ha] at hok; simp at hok
      | some a =>
        simp only [ha] at hok
        by_cases hc : a.ltB PyFloat.zero = true ∧ mc.all (fun s => !strContainsB s row.col4) = true
        · rw [if_pos hc] at hok
          cases hok
          constructor
          · intro _
            exact ⟨d, rfl, hm, a, rfl, hc.1, hc.2⟩
          · intro _
            exact ⟨_, rfl⟩
        · rw [if_neg hc] at hok
          cases hok
          constructor
          · rintro ⟨t, ht⟩
            exact absurd ht (by simp)
          · rintro ⟨d2, hd2, hm2, a2, ha2, hneg2, hall2⟩
            have hdd : d = d2 := Option.some.inj hd2
            have haa : a = a2 := Option.some.inj ha2
            subst hdd
            subst haa
            exact absurd ⟨hneg2, hall2⟩ hc
    · rw [if_neg hm] at hok
      cases hok
      constructor
      · rintro ⟨t, ht⟩
        exact absurd ht (by simp)
      · rintro ⟨d2, hd2, hm2, _⟩
        have hdd : d = d2 := Option.some.inj hd2
        subst hdd
        exact absurd hm2 hm

theorem parse_rbc_row_mem (mc : List String) (inter : Bool) (resp : String → String)
    (month : Nat) (st : ParseState) (row : RbcRow) (st2 : ParseState)
    (hok : parse_rbc_row mc inter resp month st row = .ok st2)
    (t : Transaction) (ht : t ∈ st2.transactions) :
    t ∈ st.transactions ∨
      (t.date.month = month ∧ t.amount.ltB PyFloat.zero = true ∧
        mc.all (fun s => !strContainsB s t.description) = true) := by
  by_cases h6 : row.col6 = "CAD$"
  · simp only [parse_rbc_row, if_pos h6] at hok
    cases hok
    exact Or.inl ht
  · simp only [parse_rbc_row, if_neg h6] at hok
    cases hd : parseDateMDY row.col2 with
    | none => simp only [hd] at hok; simp at hok
    | some d =>
      simp only [hd] at hok
      by_cases hm : d.month = month
      · rw [if_pos hm] at hok
        cases ha : parsePyFloat row.col6 with
        | none => simp only [ha] at hok; simp at hok
        | some a =>
          simp only [ha] at hok
          by_cases hc : a.ltB PyFloat.zero = true ∧ mc.all (fun s => !strContainsB s row.col4) = true
          · rw [if_pos hc] at hok
            cases hok
            simp only [List.mem_append, List.mem_singleton] at ht
            cases ht with
            | inl h => exact Or.inl h
            | inr h =>
              subst h
              exact Or.inr ⟨hm, hc.1, hc.2⟩
          · rw [if_neg hc] at hok
            cases hok
            exact Or.inl ht
      · rw [if_neg hm] at hok
        cases hok
        exact Or.inl ht

theorem parse_tangerine_row_mem (inter : Bool) (resp : String → String)
    (month : Nat) (st : ParseState) (row : TangRow) (st2 : ParseState)
    (hok : parse_tangerine_row inter resp month st row = .ok st2)
    (t : Transaction) (ht : t ∈ st2.transactions) :
    t ∈ st.transactions ∨
      (t.date.month = month ∧ row.col1 = "DEBIT" ∧ t.description = row.col2 ∧
        parseDateMDY row.col0 = some t.date ∧ parsePyFloat row.col4 = some t.amount) := by
  by_cases h0 : row.col0 = "Transaction date"
  · simp only [parse_tangerine_row, if_pos h0] at hok
    cases hok
    exact Or.inl ht
  · simp only [parse_tangerine_row, if_neg h0] at hok
    cases hd : parseDateMDY row.col0 with
    | none => simp only [hd] at hok; simp at hok
    | some d =>
      simp only [hd] at hok
      by_cases hm : d.month = month ∧ row.col1 = "DEBIT"
      · rw [if_pos hm] at hok
        cases ha : parsePyFloat row.col4 with
        | none => simp only [ha] at hok; simp at hok
        | some a =>
          simp only [ha] at hok
          cases hok
          simp only [List.mem_cons] at ht
          cases ht with
          | inl h =>
            subst h
            exact Or.inr ⟨hm.1, hm.2, rfl, rfl, rfl⟩
          | inr h => exact Or.inl h
      · rw [if_neg hm] at hok
        cases hok
        exact Or.inl ht

theorem rowStep_mem (mc : List String) (inter : Bool) (resp : String → String)
    (month : Nat) (st : ParseState) (row : Row) (st2 : ParseState)
    (hok : rowStep mc inter resp month st row = .ok st2)
    (t : Transaction) (ht : t ∈ st2.transactions) :
    t ∈ st.transactions ∨
      (t.date.month = month ∧
        ((t.amount.ltB PyFloat.zero = true ∧ mc.all (fun s => !strContainsB s t.description) = true) ∨
          (∃ r : TangRow, row = Row.tang r ∧ r.col1 = "DEBIT" ∧ t.description = r.col2 ∧
            parseDateMDY r.col0 = some t.date ∧ parsePyFloat r.col4 = some t.amount))) := by
  cases row with
  | rbc r =>
    rcases parse_rbc_row_mem mc inter resp month st r st2 hok t ht with h | h
    · exact Or.inl h
    · exact Or.inr ⟨h.1, Or.inl ⟨h.2.1, h.2.2⟩⟩
  | tang r =>
    rcases parse_tangerine_row_mem inter resp month st r st2 hok t ht with h | h
    · exact Or.inl h
    · exact Or.inr ⟨h.1, Or.inr ⟨r, rfl, h.2.1, h.2.2.1, h.2.2.2.1, h.2.2.2.2⟩⟩

theorem runRows_mem (mc : List String) (inter : Bool) (resp : String → String)
    (month : Nat) (rows : List Row) : ∀ (st st2 : ParseState),
    runRows mc inter resp month st rows = .ok st2 →
    ∀ t ∈ st2.transactions, t ∈ st.transactions ∨
      (t.date.month = month ∧
        ((t.amount.ltB PyFloat.zero = true ∧ mc.all (fun s => !strContainsB s t.description) = true) ∨
          (∃ r : TangRow, Row.tang r ∈ rows ∧ r.col1 = "DEBIT" ∧ t.description = r.col2 ∧
            parseDateMDY r.col0 = some t.date ∧ parsePyFloat r.col4 = some t.amount))) := by
  induction rows with
  | nil =>
    intro st st2 hok t ht
    simp only [runRows] at hok
    cases hok
    exact Or.inl ht
  | cons row rest ih =>
    intro st st2 hok t ht
    simp only [runRows] at hok
    cases hstep : rowStep mc inter resp month st row with
    | error e => simp only [hstep] at hok; simp at hok
    | ok stMid =>
      simp only [hstep] at hok
      rcases ih stMid st2 hok t ht with hmem | ⟨hmon, hP⟩
      · rcases rowStep_mem mc inter resp month st row stMid hstep t hmem with h2 | ⟨hmon2, h2⟩
        · exact Or.inl h2
        · rcases h2 with hA | ⟨r, hr, hdeb, hdesc, hdate, hamt⟩
          · exact Or.inr ⟨hmon2, Or.inl hA⟩
          · refine Or.inr ⟨hmon2, Or.inr ⟨r, ?_, hdeb, hdesc, hdate, hamt⟩⟩
            rw [hr]
            exact List.mem_cons_self _ _
      · rcases hP with hA | ⟨r, hrmem, hdeb, hdesc, hdate, hamt⟩
        · exact Or.inr ⟨hmon, Or.inl hA⟩
        · exact Or.inr ⟨hmon, Or.inr ⟨r, List.mem_cons_of_mem _ hrmem, hdeb, hdesc, hdate, hamt⟩⟩

/-- C4: every Transaction ever present in the Ledger satisfies the month
filter and its bank's inclusion predicate: its date's month equals the
target month, and either (Bank A) its amount is negative and its
description matches no monthly-cost exclusion substring, or (Bank B) it
stems from an input row whose column 1 equals "DEBIT". -/
theorem ledger_invariant (mc : List String) (inter : Bool) (resp : String → String)
    (month : Nat) (cats0 : CategoryMap) (rows : List Row) (st2 : ParseState)
    (h : runRows mc inter resp month ⟨[], cats0⟩ rows = .ok st2) :
    ∀ t ∈ st2.transactions, t.date.month = month ∧
      ((t.amount.ltB PyFloat.zero = true ∧ mc.all (fun s => !strContainsB s t.description) = true) ∨
        (∃ r : TangRow, Row.tang r ∈ rows ∧ r.col1 = "DEBIT" ∧ t.description = r.col2 ∧
          parseDateMDY r.col0 = some t.date ∧ parsePyFloat r.col4 = some t.amount)) := by
  intro t ht
  rcases runRows_mem mc inter resp month rows ⟨[], cats0⟩ st2 h t ht with hmem | hP
  · simp at hmem
  · exact hP

/-- C2: a Bank A (RBC) row whose amount column literally equals "CAD$"
is skipped unconditionally; otherwise, when the row is processed without
a fatal error, a Transaction is appended to the Ledger iff the date's
month equals the target month, the numeric amount is negative, and the
description contains no substring from the monthly-costs exclusion
list. -/
theorem rbc_row_skip_and_inclusion (mc : List String) (inter : Bool)
    (resp : String → String) (month : Nat) (st : ParseState) (row : RbcRow) :
    (row.col6 = "CAD$" → parse_rbc_row mc inter resp month st row = .ok st) ∧
    (row.col6 ≠ "CAD$" → ∀ st2, parse_rbc_row mc inter resp month st row = .ok st2 →
      ((∃ t, st2.transactions = st.transactions ++ [t]) ↔
        (∃ d, parseDateMDY row.col2 = some d ∧ d.month = month ∧
          ∃ a, parsePyFloat row.col6 = some a ∧ a.ltB PyFloat.zero = true ∧
            mc.all (fun s => !strContainsB s row.col4) = true))) := by
  constructor
  · intro h6
    simp [parse_rbc_row, h6]
  · intro h6 st2 hok
    exact parse_rbc_row_adds mc inter resp month st row st2 h6 hok

theorem rbc_row_skip_and_inclusion_witness :
    (∃ t, ([⟨⟨2024, 3, 5⟩, "Coffee Shop", "Unknown", (⟨-450, 100⟩ : PyFloat)⟩] : List Transaction) =
      [] ++ [t]) ↔
      (∃ d, parseDateMDY "03/05/2024" = some d ∧ d.month = 3 ∧
        ∃ a, parsePyFloat "-4.50" = some a ∧ a.ltB PyFloat.zero = true ∧
          List.all [] (fun s => !strContainsB s "Coffee Shop") = true) :=
  (rbc_row_skip_and_inclusion [] false (fun _ => "") 3 ⟨[], []⟩
      ⟨"03/05/2024", "Coffee Shop", "-4.50"⟩).2 (by decide)
    ⟨[⟨⟨2024, 3, 5⟩, "Coffee Shop", "Unknown", (⟨-450, 100⟩ : PyFloat)⟩], [("Coffee Shop", "Unknown")]⟩
    (by decide)

/-- C10: the CLI entry point constructs the ExpenseGrabber with an empty
monthly_costs list, under which the monthly-cost exclusion check is
vacuously true for every description; hence in a CLI run no RBC row is
ever excluded by the monthly-cost list, and inclusion degenerates to the
month and negative-amount conditions. -/
theorem cli_empty_monthly_costs_vacuous (inter : Bool) (resp : String → String)
    (month : Nat) (st : ParseState) (row : RbcRow) (h6 : row.col6 ≠ "CAD$") :
    (∀ desc : String, mainMonthlyCosts.all (fun s => !strContainsB s desc) = true) ∧
    (∀ st2, parse_rbc_row mainMonthlyCosts inter resp month st row = .ok st2 →
      ((∃ t, st2.transactions = st.transactions ++ [t]) ↔
        (∃ d, parseDateMDY row.col2 = some d ∧ d.month = month ∧
          ∃ a, parsePyFloat row.col6 = some a ∧ a.ltB PyFloat.zero = true))) := by
  constructor
  · intro desc
    rfl
  · intro st2 hok
    rw [parse_rbc_row_adds mainMonthlyCosts inter resp month st row st2 h6 hok]
    constructor
    · rintro ⟨d, hd, hm, a, ha, hneg, _⟩
      exact ⟨d, hd, hm, a, ha, hneg⟩
    · rintro ⟨d, hd, hm, a, ha, hneg⟩
      exact ⟨d, hd, hm, a, ha, hneg, rfl⟩

theorem cli_empty_monthly_costs_vacuous_witness :
    (List.all mainMonthlyCosts (fun s => !strContainsB s "Groceries") = true) ∧
    ((∃ t, ([⟨⟨2024, 3, 5⟩, "Coffee Shop", "Unknown", (⟨-450, 100⟩ : PyFloat)⟩] : List Transaction) =
        [] ++ [t]) ↔
      (∃ d, parseDateMDY "03/05/2024" = some d ∧ d.month = 3 ∧
        ∃ a, parsePyFloat "-4.50" = some a ∧ a.ltB PyFloat.zero = true)) :=
  ⟨(cli_empty_monthly_costs_vacuous false (fun _ => "") 3 ⟨[], []⟩
      ⟨"03/05/2024", "Coffee Shop", "-4.50"⟩ (by decide)).1 "Groceries",
   (cli_empty_monthly_costs_vacuous false (fun _ => "") 3 ⟨[], []⟩
      ⟨"03/05/2024", "Coffee Shop", "-4.50"⟩ (by decide)).2
     ⟨[⟨⟨2024, 3, 5⟩, "Coffee Shop", "Unknown", (⟨-450, 100⟩ : PyFloat)⟩], [("Coffee Shop", "Unknown")]⟩
     (by decide)⟩

/-- C5: after a parser processes a non-skipped row without a fatal
error, the CategoryMap maps that row's description to the category
resolved for that row (including the default "Unknown"), even when the
row fails the month or inclusion filters. -/
theorem lookup_records_resolved_category (mc : List String) (inter : Bool)
    (resp : String → String) (month : Nat) (st : ParseState)
    (rrow : RbcRow) (trow : TangRow) :
    (rrow.col6 ≠ "CAD$" → ∀ st2, parse_rbc_row mc inter resp month st rrow = .ok st2 →
      cmGet? st2.categories rrow.col4 =
        some (rbcCategorize st.categories inter resp rrow.col4).1) ∧
    (trow.col0 ≠ "Transaction date" →
      ∀ st2, parse_tangerine_row inter resp month st trow = .ok st2 →
      cmGet? st2.categories trow.col2 =
        some (tangCategorize st.categories inter resp trow.col2 trow.col3).1) := by
  constructor
  · intro h6 st2 hok
    rw [parse_rbc_row_categories mc inter resp month st rrow st2 h6 hok]
    exact rbcCategorize_lookup st.categories inter resp rrow.col4
  · intro h0 st2 hok
    rw [parse_tangerine_row_categories inter resp month st trow st2 h0 hok]
    exact tangCategorize_lookup st.categories inter resp trow.col2 trow.col3

theorem lookup_records_resolved_category_witness :
    cmGet? [("STORE", "Unknown")] "STORE" =
      some (rbcCategorize [] false (fun _ => "") "STORE").1 ∧
    cmGet? [("NETFLIX", "Unknown")] "NETFLIX" =
      some (tangCategorize [] false (fun _ => "") "NETFLIX" "Entertainment: Streaming").1 :=
  ⟨(lookup_records_resolved_category [] false (fun _ => "") 2 ⟨[], []⟩
      ⟨"01/15/2024", "STORE", "-5.00"⟩ ⟨"", "", "", "", ""⟩).1 (by decide)
      ⟨[], [("STORE", "Unknown")]⟩ (by decide),
   (lookup_records_resolved_category [] false (fun _ => "") 2 ⟨[], []⟩
      ⟨"", "", ""⟩ ⟨"03/05/2024", "DEBIT", "NETFLIX", "Entertainment: Streaming", "-15.99"⟩).2
      (by decide) ⟨[], [("NETFLIX", "Unknown")]⟩ (by decide)⟩

/-- C1 (code bug): for a Bank B row with unknown description and a
non-empty colon-delimited memo segment, the last colon segment of
column 3 is "Streaming", yet the code resolves and stores "Unknown" —
the derived fallback is discarded — and in interactive mode the
operator is not re-prompted either (the console oracle's reply leaves
the result unchanged). -/
theorem tangerine_colon_fallback_discarded :
    lastColonSeg "Entertainment: Streaming" = "Streaming" ∧
    parse_tangerine_row false (fun _ => "") 3 ⟨[], []⟩
        ⟨"03/05/2024", "DEBIT", "NETFLIX", "Entertainment: Streaming", "-15.99"⟩ =
      .ok ⟨[⟨⟨2024, 3, 5⟩, "NETFLIX", "Unknown", (⟨-1599, 100⟩ : PyFloat)⟩], [("NETFLIX", "Unknown")]⟩ ∧
    parse_tangerine_row true (fun _ => "PromptedCategory") 3 ⟨[], []⟩
        ⟨"03/05/2024", "DEBIT", "NETFLIX", "Entertainment: Streaming", "-15.99"⟩ =
      .ok ⟨[⟨⟨2024, 3, 5⟩, "NETFLIX", "Unknown", (⟨-1599, 100⟩ : PyFloat)⟩], [("NETFLIX", "Unknown")]⟩ ∧
    ("Unknown" : String) ≠ "Streaming" :=
  ⟨by decide, by decide, by decide, by decide⟩

/-- C3 (counterexample): an RBC row with the non-numeric amount "abc"
(distinct from the "CAD$" marker) whose month 1 differs from the target
month 2 is silently dropped with no fatal error — the amount conversion
is short-circuited by the month filter, contradicting the claim that an
unparseable amount always aborts the run. -/
theorem row_error_policy_cex :
    parsePyFloat "abc" = none ∧
    ("abc" : String) ≠ "CAD$" ∧
    parse_rbc_row [] false (fun _ => "") 2 ⟨[], []⟩ ⟨"01/15/2024", "STORE", "abc"⟩ =
      .ok ⟨[], [("STORE", "Unknown")]⟩ :=
  ⟨by decide, by decide, by decide⟩

/-- C3 (amended): a non-skipped row with an unparseable date always
raises a fatal parse error; a non-numeric amount raises a fatal error
only when the row reaches the amount conversion — for Bank A when the
month matches, for Bank B when the month matches and column 1 is
"DEBIT" — and otherwise the row is silently dropped without error. -/
theorem row_error_policy_amended (mc : List String) (inter : Bool)
    (resp : String → String) (month : Nat) (st : ParseState)
    (rrow : RbcRow) (trow : TangRow) :
    (rrow.col6 ≠ "CAD$" → parseDateMDY rrow.col2 = none →
      parse_rbc_row mc inter resp month st rrow = .error (.badDate rrow.col2)) ∧
    (∀ d, rrow.col6 ≠ "CAD$" → parseDateMDY rrow.col2 = some d → d.month = month →
      parsePyFloat rrow.col6 = none →
      parse_rbc_row mc inter resp month st rrow = .error (.badAmount rrow.col6)) ∧
    (∀ d, rrow.col6 ≠ "CAD$" → parseDateMDY rrow.col2 = some d → d.month ≠ month →
      ∃ st2, parse_rbc_row mc inter resp month st rrow = .ok st2) ∧
    (trow.col0 ≠ "Transaction date" → parseDateMDY trow.col0 = none →
      parse_tangerine_row inter resp month st trow = .error (.badDate trow.col0)) ∧
    (∀ d, trow.col0 ≠ "Transaction date" → parseDateMDY trow.col0 = some d →
      d.month = month → trow.col1 = "DEBIT" → parsePyFloat trow.col4 = none →
      parse_tangerine_row inter resp month st trow = .error (.badAmount trow.col4)) ∧
    (∀ d, trow.col0 ≠ "Transaction date" → parseDateMDY trow.col0 = some d →
      ¬(d.month = month ∧ trow.col1 = "DEBIT") →
      ∃ st2, parse_tangerine_row inter resp month st trow = .ok st2) := by
  refine ⟨?_, ?_, ?_, ?_, ?_, ?_⟩
  · intro h6 hd
    simp [parse_rbc_row, if_neg h6, hd]
  · intro d h6 hd hm ha
    simp [parse_rbc_row, if_neg h6, hd, hm, ha]
  · intro d h6 hd hm
    refine ⟨⟨st.transactions, (rbcCategorize st.categories inter resp rrow.col4).2⟩, ?_⟩
    simp only [parse_rbc_row, if_neg h6, hd]
    rw [if_neg hm]
  · intro h0 hd
    simp [parse_tangerine_row, if_neg h0, hd]
  · intro d h0 hd hm hdeb ha
    simp [parse_tangerine_row, if_neg h0, hd, hm, hdeb, ha]
  · intro d h0 hd hm
    refine ⟨⟨st.transactions, (tangCategorize st.categories inter resp trow.col2 trow.col3).2⟩, ?_⟩
    simp only [parse_tangerine_row, if_neg h0, hd]
    rw [if_neg hm]

theorem row_error_policy_amended_witness :
    parse_rbc_row [] false (fun _ => "") 2 ⟨[], []⟩ ⟨"junk", "STORE", "-5.00"⟩ =
      .error (.badDate "junk") ∧
    parse_rbc_row [] false (fun _ => "") 1 ⟨[], []⟩ ⟨"01/15/2024", "STORE", "abc"⟩ =
      .error (.badAmount "abc") ∧
    parse_tangerine_row false (fun _ => "") 3 ⟨[], []⟩ ⟨"nope", "DEBIT", "X", "Y", "-1.00"⟩ =
      .error (.badDate "nope") :=
  ⟨(row_error_policy_amended [] false (fun _ => "") 2 ⟨[], []⟩
      ⟨"junk", "STORE", "-5.00"⟩ ⟨"", "", "", "", ""⟩).1 (by decide) (by decide),
   (row_error_policy_amended [] false (fun _ => "") 1 ⟨[], []⟩
      ⟨"01/15/2024", "STORE", "abc"⟩ ⟨"", "", "", "", ""⟩).2.1 ⟨2024, 1, 15⟩
      (by decide) (by decide) (by decide) (by decide),
   (row_error_policy_amended [] false (fun _ => "") 3 ⟨[], []⟩
      ⟨"", "", ""⟩ ⟨"nope", "DEBIT", "X", "Y", "-1.00"⟩).2.2.2.1 (by decide) (by decide)⟩

theorem pyfloat_toRat_add (a b : PyFloat) (ha : a.den ≠ 0) (hb : b.den ≠ 0) :
    (a.add b).toRat = a.toRat + b.toRat := by
  unfold PyFloat.add PyFloat.toRat
  have ha2 : ((a.den : ℚ)) ≠ 0 := Nat.cast_ne_zero.mpr ha
  have hb2 : ((b.den : ℚ)) ≠ 0 := Nat.cast_ne_zero.mpr hb
  push_cast
  field_simp
  try ring

theorem pyfloat_toRat_abs (a : PyFloat) : (PyFloat.abs a).toRat = |a.toRat| := by
  unfold PyFloat.abs PyFloat.toRat
  rw [abs_div, Int.cast_abs, abs_of_nonneg (by positivity : (0 : ℚ) ≤ (a.den : ℚ))]

theorem foldl_add_toRat (l : List Transaction) : (∀ t ∈ l, t.amount.den ≠ 0) →
    ∀ acc : PyFloat, acc.den ≠ 0 →
      (l.foldl (fun tot t => tot.add t.amount) acc).toRat =
        acc.toRat + (l.map (fun t => t.amount.toRat)).sum ∧
      (l.foldl (fun tot t => tot.add t.amount) acc).den ≠ 0 := by
  induction l with
  | nil =>
    intro _ acc hacc
    exact ⟨by simp, hacc⟩
  | cons t rest ih =>
    intro h acc hacc
    have h1 : t.amount.den ≠ 0 := h t (by simp)
    have hrest : ∀ x ∈ rest, x.amount.den ≠ 0 := fun x hx => h x (by simp [hx])
    have haccden : (acc.add t.amount).den ≠ 0 := by
      unfold PyFloat.add
      exact Nat.mul_ne_zero hacc h1
    obtain ⟨hrec, hden⟩ := ih hrest (acc.add t.amount) haccden
    constructor
    · simp only [List.foldl_cons, hrec,
        pyfloat_toRat_add acc t.amount hacc h1, List.map_cons, List.sum_cons]
      ring
    · simpa using hden

/-- C7: total_spent denotes the absolute value of the (exact) sum of
all transaction amounts in the Ledger, and returns (a representation
of) zero when the Ledger is empty. -/
theorem total_spent_abs_sum (l : List Transaction)
    (h : ∀ t ∈ l, t.amount.den ≠ 0) :
    (total_spent l).toRat = |(l.map (fun t => t.amount.toRat)).sum| ∧
    total_spent ([] : List Transaction) = PyFloat.abs PyFloat.zero ∧
    (total_spent ([] : List Transaction)).toRat = 0 := by
  refine ⟨?_, rfl, by simp [total_spent, PyFloat.abs, PyFloat.zero, PyFloat.toRat]⟩
  unfold total_spent
  rw [pyfloat_toRat_abs]
  have h0 : PyFloat.zero.den ≠ 0 := one_ne_zero
  rw [(foldl_add_toRat l h PyFloat.zero h0).1]
  have hz : PyFloat.zero.toRat = 0 := by simp [PyFloat.zero, PyFloat.toRat]
  rw [hz, zero_add]

theorem total_spent_abs_sum_witness :
    (total_spent [⟨⟨2024, 3, 5⟩, "A", "Unknown", ⟨-450, 100⟩⟩,
                  ⟨⟨2024, 3, 7⟩, "B", "Unknown", ⟨-1599, 100⟩⟩]).toRat =
      |(([⟨⟨2024, 3, 5⟩, "A", "Unknown", ⟨-450, 100⟩⟩,
          ⟨⟨2024, 3, 7⟩, "B", "Unknown", ⟨-1599, 100⟩⟩] : List Transaction).map
          (fun t => t.amount.toRat)).sum| :=
  (total_spent_abs_sum _ (by decide)).1

theorem ledger_invariant_witness :
    (⟨⟨2024, 3, 5⟩, "NETFLIX", "Unknown", ⟨-1599, 100⟩⟩ : Transaction).date.month = 3 ∧
    (((⟨⟨2024, 3, 5⟩, "NETFLIX", "Unknown", ⟨-1599, 100⟩⟩ : Transaction).amount.ltB
          PyFloat.zero = true ∧
        List.all [] (fun s => !strContainsB s
          (⟨⟨2024, 3, 5⟩, "NETFLIX", "Unknown", ⟨-1599, 100⟩⟩ : Transaction).description) =
          true) ∨
      (∃ r : TangRow,
        Row.tang r ∈
          [Row.tang ⟨"03/05/2024", "DEBIT", "NETFLIX", "Entertainment: Streaming", "-15.99"⟩] ∧
        r.col1 = "DEBIT" ∧
        (⟨⟨2024, 3, 5⟩, "NETFLIX", "Unknown", ⟨-1599, 100⟩⟩ : Transaction).description = r.col2 ∧
        parseDateMDY r.col0 =
          some (⟨⟨2024, 3, 5⟩, "NETFLIX", "Unknown", ⟨-1599, 100⟩⟩ : Transaction).date ∧
        parsePyFloat r.col4 =
          some (⟨⟨2024, 3, 5⟩, "NETFLIX", "Unknown", ⟨-1599, 100⟩⟩ : Transaction).amount)) :=
  ledger_invariant [] false (fun _ => "") 3 []
    [Row.tang ⟨"03/05/2024", "DEBIT", "NETFLIX", "Entertainment: Streaming", "-15.99"⟩]
    ⟨[⟨⟨2024, 3, 5⟩, "NETFLIX", "Unknown", ⟨-1599, 100⟩⟩], [("NETFLIX", "Unknown")]⟩
    (by decide) ⟨⟨2024, 3, 5⟩, "NETFLIX", "Unknown", ⟨-1599, 100⟩⟩ (by decide)

/-- C8 (counterexample): with known categories displayed as "0: Food"
and "1: Rent", the prompt reply "-1" is not an index into the displayed
list, yet add_category records the existing category "Rent" (Python
negative indexing selects the last unique category) instead of the
literal input string "-1". -/
theorem add_category_negative_index_cex :
    parsePyInt "-1" = some (-1) ∧
    get_unique_categories [("A", "Food"), ("B", "Rent")] = ["Food", "Rent"] ∧
    add_category [("A", "Food"), ("B", "Rent")] "NEW" "-1" =
      [("A", "Food"), ("B", "Rent"), ("NEW", "Rent")] ∧
    cmGet? (add_category [("A", "Food"), ("B", "Rent")] "NEW" "-1") "NEW" = some "Rent" ∧
    ("Rent" : String) ≠ "-1" :=
  ⟨by decide, by decide, by decide, by decide, by decide⟩

/-- C8 (amended): an interactive prompt reply that does not parse as an
integer, or whose integer value lies outside Python's index range for
the displayed unique-category list (i ≥ len or i < -len), is recorded
as a literal new category for the description; an in-range integer —
including negative values down to -len — instead selects the existing
category at that Python index. -/
theorem add_category_amended (cats : CategoryMap) (tx reply : String) :
    (parsePyInt reply = none →
      cmGet? (add_category cats tx reply) tx = some reply) ∧
    (∀ i : Int, parsePyInt reply = some i →
      (((get_unique_categories cats).length : Int) ≤ i ∨
        i + ((get_unique_categories cats).length : Int) < 0) →
      cmGet? (add_category cats tx reply) tx = some reply) ∧
    (∀ i : Int, parsePyInt reply = some i →
      0 ≤ i + ((get_unique_categories cats).length : Int) →
      i < ((get_unique_categories cats).length : Int) →
      ∃ c, pyIndex (get_unique_categories cats) i = some c ∧
        cmGet? (add_category cats tx reply) tx = some c) := by
  refine ⟨?_, ?_, ?_⟩
  · intro hnone
    have hstep : add_category cats tx reply = cmInsert cats tx reply := by
      simp [add_category, hnone]
    rw [hstep]
    exact cmGet_insert_self cats tx reply
  · intro i hi hrange
    have hnone : pyIndex (get_unique_categories cats) i = none := by
      unfold pyIndex
      by_cases h0 : 0 ≤ i
      · rw [if_pos h0]
        apply List.getElem?_eq_none
        rcases hrange with h1 | h1 <;> omega
      · rw [if_neg h0]
        have h1 : i + ((get_unique_categories cats).length : Int) < 0 := by
          rcases hrange with h1 | h1
          · omega
          · exact h1
        rw [if_neg (by omega)]
    have hstep : add_category cats tx reply = cmInsert cats tx reply := by
      simp [add_category, hi, hnone]
    rw [hstep]
    exact cmGet_insert_self cats tx reply
  · intro i hi h0 hlen
    obtain ⟨c, hidx⟩ : ∃ c, pyIndex (get_unique_categories cats) i = some c := by
      unfold pyIndex
      by_cases hpos : 0 ≤ i
      · rw [if_pos hpos]
        have hlt : i.toNat < (get_unique_categories cats).length := by omega
        exact ⟨_, List.getElem?_eq_getElem hlt⟩
      · rw [if_neg hpos, if_pos h0]
        have hlt : (i + ((get_unique_categories cats).length : Int)).toNat <
            (get_unique_categories cats).length := by omega
        exact ⟨_, List.getElem?_eq_getElem hlt⟩
    refine ⟨c, hidx, ?_⟩
    have hstep : add_category cats tx reply = cmInsert cats tx c := by
      simp [add_category, hi, hidx]
    rw [hstep]
    exact cmGet_insert_self cats tx c

theorem add_category_amended_witness :
    cmGet? (add_category [("A", "Food")] "NEW" "xyz") "NEW" = some "xyz" ∧
    cmGet? (add_category [("A", "Food")] "NEW" "5") "NEW" = some "5" :=
  ⟨(add_category_amended [("A", "Food")] "NEW" "xyz").1 (by decide),
   (add_category_amended [("A", "Food")] "NEW" "5").2.1 5 (by decide) (Or.inl (by decide))⟩

theorem dateLe_refl (d : Date) : dateLe d d = true := by
  simp [dateLe]

theorem orderedInsert_filter (d : Date) (a : Transaction) :
    ∀ l : List Transaction,
    (List.orderedInsert txLe a l).filter (fun t => decide (t.date = d)) =
      (a :: l).filter (fun t => decide (t.date = d)) := by
  intro l
  induction l with
  | nil => rfl
  | cons b t ih =>
    by_cases h : txLe a b
    · rw [List.orderedInsert, if_pos h]
    · rw [List.orderedInsert, if_neg h]
      have hne : a.date ≠ b.date := by
        intro he
        apply h
        unfold txLe
        rw [he]
        exact dateLe_refl b.date
      simp only [List.filter_cons, ih]
      by_cases hb : b.date = d
      · have ha : ¬(a.date = d) := fun hh => hne (by rw [hh, hb])
        simp [hb, ha]
      · by_cases ha : a.date = d
        · simp [hb, ha]
        · simp [hb, ha]

theorem insertionSort_filter (d : Date) : ∀ l : List Transaction,
    (List.insertionSort txLe l).filter (fun t => decide (t.date = d)) =
      l.filter (fun t => decide (t.date = d)) := by
  intro l
  induction l with
  | nil => rfl
  | cons a t ih =>
    rw [List.insertionSort, orderedInsert_filter d a (List.insertionSort txLe t)]
    simp only [List.filter_cons, ih]

/-- C6: after process_transactions the Ledger is stably sorted by date
ascending with no secondary key: the output equals the stable date-sort
of the parsed ledger — pairwise date-ascending, a permutation of the
pre-sort ledger, and for every date the sublist of transactions with
that date keeps its pre-sort insertion order (Bank A rows appended in
file order, Bank B rows prepended in reverse-file order by the
parsers). -/
theorem ledger_sorted_stable (mc : List String) (inter : Bool)
    (resp : String → String) (month : Nat) (cats0 : CategoryMap)
    (rows : List Row) (st : ParseState)
    (h : runRows mc inter resp month ⟨[], cats0⟩ rows = .ok st) :
    process_transactions mc inter resp month cats0 rows =
      .ok ⟨List.insertionSort txLe st.transactions, st.categories⟩ ∧
    List.Sorted txLe (List.insertionSort txLe st.transactions) ∧
    (List.insertionSort txLe st.transactions).Perm st.transactions ∧
    ∀ d : Date,
      (List.insertionSort txLe st.transactions).filter (fun t => decide (t.date = d)) =
        st.transactions.filter (fun t => decide (t.date = d)) := by
  refine ⟨?_, List.sorted_insertionSort txLe st.transactions,
    List.perm_insertionSort txLe st.transactions,
    fun d => insertionSort_filter d st.transactions⟩
  simp [process_transactions, h]

theorem ledger_sorted_stable_witness :
    List.Sorted txLe (List.insertionSort txLe
      [⟨⟨2024, 3, 5⟩, "NETFLIX", "Unknown", ⟨-1599, 100⟩⟩,
       ⟨⟨2024, 3, 7⟩, "Coffee Shop", "Unknown", ⟨-450, 100⟩⟩,
       ⟨⟨2024, 3, 5⟩, "Grocer", "Unknown", ⟨-1000, 100⟩⟩]) ∧
    (List.insertionSort txLe
      [⟨⟨2024, 3, 5⟩, "NETFLIX", "Unknown", ⟨-1599, 100⟩⟩,
       ⟨⟨2024, 3, 7⟩, "Coffee Shop", "Unknown", ⟨-450, 100⟩⟩,
       ⟨⟨2024, 3, 5⟩, "Grocer", "Unknown", ⟨-1000, 100⟩⟩]).filter
        (fun t => decide (t.date = (⟨2024, 3, 5⟩ : Date))) =
      ([⟨⟨2024, 3, 5⟩, "NETFLIX", "Unknown", ⟨-1599, 100⟩⟩,
        ⟨⟨2024, 3, 7⟩, "Coffee Shop", "Unknown", ⟨-450, 100⟩⟩,
        ⟨⟨2024, 3, 5⟩, "Grocer", "Unknown", ⟨-1000, 100⟩⟩] : List Transaction).filter
        (fun t => decide (t.date = (⟨2024, 3, 5⟩ : Date))) :=
  ⟨(ledger_sorted_stable [] false (fun _ => "") 3 []
      [Row.rbc ⟨"03/07/2024", "Coffee Shop", "-4.50"⟩,
       Row.tang ⟨"03/05/2024", "DEBIT", "NETFLIX", "Entertainment: Streaming", "-15.99"⟩,
       Row.rbc ⟨"03/05/2024", "Grocer", "-10.00"⟩]
      ⟨[⟨⟨2024, 3, 5⟩, "NETFLIX", "Unknown", ⟨-1599, 100⟩⟩,
        ⟨⟨2024, 3, 7⟩, "Coffee Shop", "Unknown", ⟨-450, 100⟩⟩,
        ⟨⟨2024, 3, 5⟩, "Grocer", "Unknown", ⟨-1000, 100⟩⟩],
       [("Coffee Shop", "Unknown"), ("NETFLIX", "Unknown"), ("Grocer", "Unknown")]⟩
      (by decide)).2.1,
   (ledger_sorted_stable [] false (fun _ => "") 3 []
      [Row.rbc ⟨"03/07/2024", "Coffee Shop", "-4.50"⟩,
       Row.tang ⟨"03/05/2024", "DEBIT", "NETFLIX", "Entertainment: Streaming", "-15.99"⟩,
       Row.rbc ⟨"03/05/2024", "Grocer", "-10.00"⟩]
      ⟨[⟨⟨2024, 3, 5⟩, "NETFLIX", "Unknown", ⟨-1599, 100⟩⟩,
        ⟨⟨2024, 3, 7⟩, "Coffee Shop", "Unknown", ⟨-450, 100⟩⟩,
        ⟨⟨2024, 3, 5⟩, "Grocer", "Unknown", ⟨-1000, 100⟩⟩],
       [("Coffee Shop", "Unknown"), ("NETFLIX", "Unknown"), ("Grocer", "Unknown")]⟩
      (by decide)).2.2.2 ⟨2024, 3, 5⟩⟩
